import Mathlib

/- Verification development for the Fear and Greed Index scraper.

Shallow embedding of src/fng/fngindex.py and src/fng/cli.py.

Dates are modelled as integers (days since an epoch).  A row of the result
table is a pair of a date and the optional integer content of the
"Fear Greed" column (polars null = none).  The embedding follows the
pipeline of FearAndGreedIndex.process_data: load the optional csv file,
build the api frame from the fetched observations, join the two frames
with how="outer_coalesce", left-join that against the full calendar date
range, fill nulls (zero fill or backward fill), and sort by date.

A central point of the polars semantics that the embedding keeps: in
fng_data.join(api_df, on="Date", how="outer_coalesce") both frames carry a
column named "Fear Greed", so the column of the right (api) frame is
renamed to "Fear Greed_right" in the joined frame.  The surviving
"Fear Greed" column therefore holds the value of the existing frame on its
rows and null on api-only rows; the api values are never read again by the
rest of the pipeline. -/

abbrev Row : Type := Int × Option Int

/-- State of the optional csv input file: either the path does not exist, or
the file exists and parses to rows of (Date, Fear Greed). -/
inductive CsvFile where
  | absent : CsvFile
  | present : List (Int × Int) → CsvFile
deriving DecidableEq

/-- FearAndGreedIndex.load_existing_data: prints a warning and returns None
when the file is missing, otherwise returns the parsed frame. -/
def load_existing_data : CsvFile → Option (List (Int × Int))
  | CsvFile.absent => none
  | CsvFile.present rows => some rows

/-- The rows of a keyed list whose date equals d, in order (the matches a
polars join produces for the key d). -/
def matchRows {α : Type} : List (Int × α) → Int → List (Int × α)
  | [], _ => []
  | r :: rs, d => if r.1 = d then r :: matchRows rs d else matchRows rs d

/-- The api DataFrame built from the converted fetched observations: every
value is present. -/
def apiRows (fetched : List (Int × Int)) : List Row :=
  fetched.map (fun q => (q.1, some q.2))

/-- Contribution of one existing row to the outer join: one copy of the row
per api match (the api value is shadowed into the suffixed column), or the
row itself when no api row shares its date. -/
def mergeBlock (fetched : List (Int × Int)) (r : Int × Int) : List Row :=
  match matchRows fetched r.1 with
  | [] => [(r.1, some r.2)]
  | ms => ms.map (fun _ => (r.1, some r.2))

/-- The api rows whose date occurs nowhere in the existing frame; their
"Fear Greed" entry in the joined frame is null, because their value lands in
the suffixed "Fear Greed_right" column. -/
def rightOnly (existing fetched : List (Int × Int)) : List Row :=
  (fetched.filter (fun q => !(existing.any (fun r => r.1 = q.1)))).map
    (fun q => (q.1, (none : Option Int)))

/-- The "Fear Greed" column of
fng_data.join(api_df, on="Date", how="outer_coalesce").  Every row of the
existing frame is matched against the api rows of the same date (value kept
from the existing frame, since the api value lands in the suffixed column),
and every unmatched api row contributes a row whose "Fear Greed" entry is
null. -/
def outerCoalesceFG (existing fetched : List (Int × Int)) : List Row :=
  existing.flatMap (mergeBlock fetched) ++ rightOnly existing fetched

/-- pl.date_range(start, end, interval="1d"): all dates from s to e
inclusive, ascending; empty when e < s. -/
def dateRange (s e : Int) : List Int :=
  (List.range (e - s + 1).toNat).map (fun (i : Nat) => s + (i : Int))

/-- Rows the left join emits for one date of the range: the matching rows of
combined, or one null row when there is no match. -/
def joinBlock (combined : List Row) (d : Int) : List Row :=
  match matchRows combined d with
  | [] => [(d, (none : Option Int))]
  | ms => ms

/-- date_range.join(combined, on="Date", how="left"), in the order of the
date range. -/
def leftJoin (range : List Int) (combined : List Row) : List Row :=
  range.flatMap (joinBlock combined)

/-- The filled value at the head of an already backward-filled list. -/
def bfillHead : List Row → Option Int
  | [] => none
  | q :: _ => q.2

/-- fill_null(strategy="backward") on the "Fear Greed" column: a null takes
the filled value of the next row below; a trailing null stays null. -/
def bfill : List Row → List Row
  | [] => []
  | (d, v) :: rest =>
    (d, match v with
        | some x => some x
        | none => bfillHead (bfill rest)) :: bfill rest

/-- fill_null(0) on the "Fear Greed" column. -/
def zfill (l : List Row) : List Row :=
  l.map (fun r => (r.1, some (r.2.getD 0)))

/-- Ordering of result rows by their date. -/
def keyLe (p q : Row) : Prop := p.1 ≤ q.1

instance : DecidableRel keyLe := fun p q => Int.decLe p.1 q.1

instance : IsTotal Row keyLe := ⟨fun p q => Int.le_total p.1 q.1⟩

instance : IsTrans Row keyLe := ⟨fun _ _ _ h h2 => le_trans h h2⟩

/-- result.sort("Date"). -/
def sortByDate (l : List Row) : List Row := List.insertionSort keyLe l

/-- The joined frame the pipeline builds for the given inputs: the outer
join of the two frames when the existing frame has rows, the api frame
alone otherwise, left-joined onto the calendar range. -/
def joinedFrame (existing fetched : List (Int × Int)) (s e : Int) : List Row :=
  leftJoin (dateRange s e)
    (if 0 < existing.length then outerCoalesceFG existing fetched else apiRows fetched)

/-- The reconciliation pipeline of process_data after the frames exist:
join, calendar completion, gap fill, sort. -/
def reconcileCore (existing fetched : List (Int × Int)) (s e : Int)
    (backfill : Bool) : List Row :=
  sortByDate
    (if backfill then bfill (joinedFrame existing fetched s e)
     else zfill (joinedFrame existing fetched s e))

/-- FearAndGreedIndex.process_data, after the api payload has been converted
to observations.  csvFile = none is the branch that builds an empty frame
with the right schema; csvFile = some f loads the file.  A missing file
leaves fng_data = None and the later attribute access fng_data.height
raises; an empty fetched payload gives an api frame without a "Date" column
and the join on "Date" raises. -/
def process_data (csvFile : Option CsvFile) (fetched : List (Int × Int))
    (s e : Int) (backfill : Bool) : Except String (List Row) :=
  match (match csvFile with | some f => load_existing_data f | none => some []) with
  | none => Except.error "AttributeError: NoneType object has no attribute height"
  | some existing =>
    if fetched.isEmpty then
      Except.error "ColumnNotFoundError: unable to find column Date"
    else
      Except.ok (reconcileCore existing fetched s e backfill)

/-- Python int() applied to a rational value: truncation toward zero. -/
def pyInt (q : ℚ) : ℤ := if 0 ≤ q then ⌊q⌋ else ⌈q⌉

/-- Python round() applied to a rational value: nearest integer, ties to the
even neighbour. -/
def pyRound (q : ℚ) : ℤ :=
  if q - ⌊q⌋ < 1/2 then ⌊q⌋
  else if 1/2 < q - ⌊q⌋ then ⌊q⌋ + 1
  else if 2 ∣ ⌊q⌋ then ⌊q⌋ else ⌊q⌋ + 1

/-- datetime.fromtimestamp(sec).date() for an epoch-second instant, as a day
number since the epoch (the timezone of the host is taken as UTC). -/
def fromtimestampDate (q : ℚ) : ℤ := ⌊q / 86400⌋

/-- Conversion of one payload record in process_data:
timestamp = int(record x); date = fromtimestamp(timestamp / 1000).date();
value = int(record y). -/
def payloadToObservation (x : ℤ) (y : ℚ) : ℤ × ℤ :=
  (fromtimestampDate ((x : ℚ) / 1000), pyInt y)

/-- The api_records loop of process_data over the whole payload. -/
def convertPayload (payload : List (ℤ × ℚ)) : List (Int × Int) :=
  payload.map (fun r => payloadToObservation r.1 r.2)

/-- The observation the spec describes for a payload record:
date = floor(x / 1000) interpreted as a calendar day, value = round(y). -/
def specObservation (x : ℤ) (y : ℚ) : ℤ × ℤ :=
  (⌊((⌊(x : ℚ) / 1000⌋ : ℚ)) / 86400⌋, pyRound y)

/-- Flooring a rational and then dividing by a positive natural number gives
the same floor as dividing first. -/
theorem floor_div_cast_floor (q : ℚ) (n : ℕ) (hn : 0 < n) :
    ⌊q / (n : ℚ)⌋ = ⌊((⌊q⌋ : ℚ)) / (n : ℚ)⌋ := by
  have hn' : (0 : ℚ) < n := by exact_mod_cast hn
  have h1 : ((⌊((⌊q⌋ : ℚ)) / (n : ℚ)⌋ : ℚ)) ≤ ((⌊q⌋ : ℚ)) / (n : ℚ) := Int.floor_le _
  have h2 : ((⌊q⌋ : ℚ)) / (n : ℚ) < ⌊((⌊q⌋ : ℚ)) / (n : ℚ)⌋ + 1 := Int.lt_floor_add_one _
  have h1' : ((⌊((⌊q⌋ : ℚ)) / (n : ℚ)⌋ : ℚ)) * n ≤ ((⌊q⌋ : ℚ)) := (le_div_iff₀ hn').mp h1
  have h2' : ((⌊q⌋ : ℚ)) < ((⌊((⌊q⌋ : ℚ)) / (n : ℚ)⌋ : ℚ) + 1) * n := (div_lt_iff₀ hn').mp h2
  have hk1 : ⌊((⌊q⌋ : ℚ)) / (n : ℚ)⌋ * (n : ℤ) ≤ ⌊q⌋ := by exact_mod_cast h1'
  have hk2 : ⌊q⌋ < (⌊((⌊q⌋ : ℚ)) / (n : ℚ)⌋ + 1) * (n : ℤ) := by exact_mod_cast h2'
  have hq1 : ((⌊((⌊q⌋ : ℚ)) / (n : ℚ)⌋ * (n : ℤ) : ℤ) : ℚ) ≤ q := Int.le_floor.mp hk1
  have hq2 : q < (((⌊((⌊q⌋ : ℚ)) / (n : ℚ)⌋ + 1) * (n : ℤ) : ℤ) : ℚ) := Int.floor_lt.mp hk2
  rw [Int.floor_eq_iff]
  constructor
  · rw [le_div_iff₀ hn']
    push_cast at hq1 ⊢
    linarith
  · rw [div_lt_iff₀ hn']
    push_cast at hq2 ⊢
    linarith

/-- Claim C1 (code bug evidence).  Merge precedence fails: for a date that
carries value 10 in the existing data and value 20 in the fetched data, the
returned value is 10, the existing one.  The outer_coalesce join renames the
fetched value column to "Fear Greed_right", so the pipeline, which only
reads "Fear Greed", keeps the existing value, against the comment above the
join that says the api data takes precedence. -/
theorem C1_merge_precedence_failing :
    process_data (some (CsvFile.present [(0, 10)])) [(0, 20)] 0 0 false
      = Except.ok [(0, some 10)] := rfl

/-- Claim C3 (code bug evidence).  A missing input file makes
load_existing_data return None, and process_data then evaluates
fng_data.height on None and raises AttributeError, while the empty-frame
branch (no csv argument) succeeds on the same fetched data: the two cases
are not treated identically and processing does not continue. -/
theorem C3_missing_file_failing :
    process_data (some CsvFile.absent) [(0, 20)] 0 0 false
        = Except.error "AttributeError: NoneType object has no attribute height"
      ∧ process_data none [(0, 20)] 0 0 false = Except.ok [(0, some 20)] :=
  ⟨rfl, rfl⟩

/-- Claim C5 (code bug evidence).  Backward fill fails: existing has day 2
with value 10, fetched has day 1 with value 20, range is day 0 to day 2.
Day 0 has no observation and the nearest later observed day is day 1 with
value 20, so the claim demands 20 for day 0; the code returns 10 for day 0
(and even overwrites the fetched observation on day 1 with 10), because the
fetched value sits in the renamed "Fear Greed_right" column and is null in
the filled column. -/
theorem C5_backward_fill_failing :
    process_data (some (CsvFile.present [(2, 10)])) [(1, 20)] 0 2 true
      = Except.ok [(0, some 10), (1, some 10), (2, some 10)] := rfl

/-- Claim C6 (code bug evidence).  Reconciling a complete existing series
with an empty fetched set does not return the series unchanged: an empty
payload list gives pl.DataFrame([]) with no columns, and the join on "Date"
raises instead of returning the existing data. -/
theorem C6_idempotence_failing :
    process_data (some (CsvFile.present [(0, 5), (1, 6)])) [] 0 1 false
      = Except.error "ColumnNotFoundError: unable to find column Date" := rfl

/-- Claim C7 (counterexample).  The payload conversion does not round the
value: for the record with x = 86400000 and y = 59.7 the code produces the
value int(59.7) = 59, while the claim demands round(59.7) = 60. -/
theorem C7_payload_conversion_counterexample :
    payloadToObservation 86400000 (597/10) ≠ specObservation 86400000 (597/10) := by
  intro h
  have h2 := congrArg Prod.snd h
  simp only [payloadToObservation, specObservation, pyInt, pyRound] at h2
  norm_num at h2

/-- Claim C7 (amended).  For every payload record, the observation handed to
reconciliation has date = floor(x / 1000 milliseconds) interpreted as a
calendar date, and value = int(y), the truncation of y toward zero (not the
rounding of y). -/
theorem C7_payload_conversion_amended (x : ℤ) (y : ℚ) :
    payloadToObservation x y = (⌊((⌊(x : ℚ) / 1000⌋ : ℚ)) / 86400⌋, pyInt y) := by
  have h : ⌊((x : ℚ) / 1000) / ((86400 : ℕ) : ℚ)⌋
      = ⌊((⌊(x : ℚ) / 1000⌋ : ℚ)) / ((86400 : ℕ) : ℚ)⌋ :=
    floor_div_cast_floor ((x : ℚ) / 1000) 86400 (by norm_num)
  have hc : ((86400 : ℕ) : ℚ) = (86400 : ℚ) := by norm_num
  rw [hc] at h
  unfold payloadToObservation fromtimestampDate
  rw [h]

/- CLI boundary: a shallow embedding of the validation prologue of the
scrape command in src/fng/cli.py.  The outcome type records whether the
command exits with status 1 before any work, or proceeds to the
fetch/merge/save phase with the validated arguments. -/

/-- Splitting a character list on the dash character, in the manner of
splitting a string on a one-character separator. -/
def splitDash : List Char → List (List Char)
  | [] => [[]]
  | c :: rest =>
    if c = '-' then [] :: splitDash rest
    else
      match splitDash rest with
      | [] => [[c]]
      | p :: ps => (c :: p) :: ps

/-- Value of one decimal digit character. -/
def digitVal? (c : Char) : Option Nat :=
  if '0' ≤ c ∧ c ≤ '9' then some (c.toNat - 48) else none

/-- Helper: decimal value of a digit run, given an accumulator. -/
def digitsValAux : List Char → Nat → Option Nat
  | [], acc => some acc
  | c :: cs, acc =>
    match digitVal? c with
    | none => none
    | some d => digitsValAux cs (acc * 10 + d)

/-- Decimal value of a nonempty run of digit characters. -/
def digitsVal? (cs : List Char) : Option Nat :=
  if cs.isEmpty then none else digitsValAux cs 0

/-- Gregorian leap year rule used by datetime. -/
def isLeap (y : Nat) : Bool := (y % 4 == 0 && y % 100 != 0) || y % 400 == 0

/-- Number of days of a month, as validated by the datetime constructor. -/
def daysInMonth (y m : Nat) : Nat :=
  if m = 2 then (if isLeap y then 29 else 28)
  else if m = 4 ∨ m = 6 ∨ m = 9 ∨ m = 11 then 30
  else 31

/-- A calendar date as carried by a parsed datetime value. -/
structure YMD where
  year : Nat
  month : Nat
  day : Nat
deriving DecidableEq

/-- Validation of the three dash-separated fields against the strptime
directives %Y (exactly four digits), %m and %d (one or two digits), and the
range checks of the datetime constructor. -/
def parseYMDParts (ys ms ds : List Char) : Option YMD :=
  if ys.length = 4 ∧ 1 ≤ ms.length ∧ ms.length ≤ 2 ∧ 1 ≤ ds.length ∧ ds.length ≤ 2 then
    match digitsVal? ys, digitsVal? ms, digitsVal? ds with
    | some y, some m, some d =>
      if 1 ≤ y ∧ 1 ≤ m ∧ m ≤ 12 ∧ 1 ≤ d ∧ d ≤ daysInMonth y m then some ⟨y, m, d⟩
      else none
    | _, _, _ => none
  else none

/-- datetime.strptime(s, "%Y-%m-%d"): some date on success, none when the
call raises ValueError. -/
def parseYMD (s : String) : Option YMD :=
  match splitDash s.toList with
  | [ys, ms, ds] => parseYMDParts ys ms ds
  | _ => none

/-- Comparison of two datetime values for the start_dt > end_dt check,
here as a strict less-than on (year, month, day). -/
def ymdLt (a b : YMD) : Bool :=
  a.year < b.year
    || (a.year == b.year
        && (a.month < b.month || (a.month == b.month && a.day < b.day)))

/-- ASCII lowering of one character, as str.lower acts on the ascii
arguments of the command. -/
def lowerAscii (c : Char) : Char :=
  if 'A' ≤ c ∧ c ≤ 'Z' then Char.ofNat (c.toNat + 32) else c

/-- format_type.lower() in ["parquet", "csv"]. -/
def validFormat (fmt : String) : Bool :=
  let l := fmt.toList.map lowerAscii
  l = "parquet".toList || l = "csv".toList

/-- Outcome of the scrape command prologue: either an early exit with
status 1, or entry into the fetch/merge/save phase with the accepted
arguments. -/
inductive ScrapeOutcome where
  | exit1 : ScrapeOutcome
  | run : YMD → YMD → String → Bool → ScrapeOutcome
deriving DecidableEq

/-- The validation prologue of the scrape command: reject an unsupported
output format, reject dates that strptime cannot parse, reject a start date
strictly after the end date; otherwise proceed to the working phase. -/
def scrape (startS endS fmt : String) (backfill : Bool) : ScrapeOutcome :=
  if !(validFormat fmt) then ScrapeOutcome.exit1
  else
    match parseYMD startS, parseYMD endS with
    | some sd, some ed =>
      if ymdLt ed sd then ScrapeOutcome.exit1
      else ScrapeOutcome.run sd ed fmt backfill
    | _, _ => ScrapeOutcome.exit1

/-- Claim C9.  When the scrape command is invoked with an output format
other than parquet/csv (case-insensitively), with a date strptime rejects,
or with a start date strictly after the end date, it exits with status 1
before any fetch, merge or save work starts (the run outcome is the only
one that enters that phase). -/
theorem C9_boundary_validation (startS endS fmt : String) (b : Bool)
    (h : validFormat fmt = false ∨ parseYMD startS = none ∨ parseYMD endS = none ∨
      ∃ sd ed, parseYMD startS = some sd ∧ parseYMD endS = some ed ∧ ymdLt ed sd = true) :
    scrape startS endS fmt b = ScrapeOutcome.exit1 := by
  unfold scrape
  by_cases hv : validFormat fmt
  · simp only [hv, Bool.not_true, Bool.false_eq_true, if_false]
    rcases h with h | h | h | ⟨sd, ed, h1, h2, h3⟩
    · rw [hv] at h
      cases h
    · rw [h]
    · rw [h]
      cases parseYMD startS <;> rfl
    · rw [h1, h2]
      simp only [h3, if_true]
  · simp only [Bool.not_eq_true] at hv
    simp only [hv, Bool.not_false, if_true]

/-- Witness for claim C9 at a concrete bad invocation: start 2024-01-02,
end 2024-01-01, format csv. -/
theorem C9_boundary_validation_witness :
    scrape "2024-01-02" "2024-01-01" "csv" false = ScrapeOutcome.exit1 :=
  C9_boundary_validation "2024-01-02" "2024-01-01" "csv" false
    (Or.inr (Or.inr (Or.inr ⟨⟨2024, 1, 2⟩, ⟨2024, 1, 1⟩, by decide, by decide, by decide⟩)))
/- Supporting lemmas about the pipeline pieces. -/

/-- Membership in the calendar range. -/
theorem mem_dateRange {s e d : Int} : d ∈ dateRange s e ↔ s ≤ d ∧ d ≤ e := by
  unfold dateRange
  rw [List.mem_map]
  constructor
  · rintro ⟨i, hi, rfl⟩
    rw [List.mem_range] at hi
    omega
  · rintro ⟨h1, h2⟩
    exact ⟨(d - s).toNat, List.mem_range.mpr (by omega), by omega⟩

/-- The calendar range is strictly increasing. -/
theorem dateRange_pairwise (s e : Int) : (dateRange s e).Pairwise (· < ·) := by
  unfold dateRange
  rw [List.pairwise_map]
  refine (List.pairwise_lt_range _).imp ?_
  intro a b h
  omega

/-- Length of the calendar range. -/
theorem dateRange_length (s e : Int) : (dateRange s e).length = (e - s + 1).toNat := by
  unfold dateRange
  rw [List.length_map, List.length_range]

/-- A date absent from the keys matches no row. -/
theorem matchRows_eq_nil {α : Type} {l : List (Int × α)} {d : Int}
    (h : d ∉ l.map Prod.fst) : matchRows l d = [] := by
  induction l with
  | nil => rfl
  | cons r rs ih =>
    simp only [List.map_cons, List.mem_cons, not_or] at h
    unfold matchRows
    rw [if_neg (fun hc => h.1 hc.symm)]
    exact ih h.2

/-- Every match is a row of the list and carries the requested date. -/
theorem matchRows_mem {α : Type} {l : List (Int × α)} {d : Int} {r : Int × α}
    (h : r ∈ matchRows l d) : r ∈ l ∧ r.1 = d := by
  induction l with
  | nil => cases h
  | cons q qs ih =>
    unfold matchRows at h
    by_cases hc : q.1 = d
    · rw [if_pos hc] at h
      rcases List.mem_cons.mp h with h | h
      · subst h
        exact ⟨List.mem_cons_self _ _, hc⟩
      · rcases ih h with ⟨h1, h2⟩
        exact ⟨List.mem_cons_of_mem _ h1, h2⟩
    · rw [if_neg hc] at h
      rcases ih h with ⟨h1, h2⟩
      exact ⟨List.mem_cons_of_mem _ h1, h2⟩

/-- Under unique keys a date matches no row or exactly one. -/
theorem matchRows_single {α : Type} {l : List (Int × α)}
    (h : (l.map Prod.fst).Nodup) (d : Int) :
    matchRows l d = [] ∨ ∃ v, matchRows l d = [(d, v)] := by
  induction l with
  | nil => exact Or.inl rfl
  | cons r rs ih =>
    obtain ⟨a, b⟩ := r
    simp only [List.map_cons, List.nodup_cons] at h
    unfold matchRows
    by_cases hc : a = d
    · subst hc
      refine Or.inr ⟨b, ?_⟩
      rw [if_pos rfl, matchRows_eq_nil h.1]
    · rw [if_neg hc]
      exact ih h.2

/-- The block of the left join for one date, in conditional form. -/
theorem joinBlock_eq (c : List Row) (d : Int) :
    joinBlock c d
      = if matchRows c d = [] then [(d, (none : Option Int))] else matchRows c d := by
  unfold joinBlock
  cases h : matchRows c d with
  | nil => simp
  | cons q qs => simp

/-- Dates of the left join, under unique keys of the joined frame: exactly
the dates of the range, in order. -/
theorem leftJoin_map_fst {c : List Row} (hc : (c.map Prod.fst).Nodup)
    (range : List Int) : (leftJoin range c).map Prod.fst = range := by
  induction range with
  | nil => rfl
  | cons d ds ih =>
    unfold leftJoin at ih ⊢
    rw [List.flatMap_cons, List.map_append, ih]
    have hblock : (joinBlock c d).map Prod.fst = [d] := by
      rw [joinBlock_eq]
      rcases matchRows_single hc d with h | ⟨v, h⟩
      · rw [if_pos h]
        rfl
      · rw [h]
        simp
    rw [hblock]
    rfl

/-- Every row of the left join carries a date of the range, and is a row of
the joined frame or a null filler. -/
theorem mem_leftJoin {c : List Row} {range : List Int} {p : Row}
    (h : p ∈ leftJoin range c) : p.1 ∈ range ∧ (p ∈ c ∨ p.2 = none) := by
  unfold leftJoin at h
  rw [List.mem_flatMap] at h
  rcases h with ⟨d, hd, hp⟩
  rw [joinBlock_eq] at hp
  by_cases hm : matchRows c d = []
  · rw [if_pos hm] at hp
    rcases List.mem_singleton.mp hp with rfl
    exact ⟨hd, Or.inr rfl⟩
  · rw [if_neg hm] at hp
    rcases matchRows_mem hp with ⟨h1, h2⟩
    rw [← h2] at hd
    exact ⟨hd, Or.inl h1⟩

/-- Zero filling keeps the dates. -/
theorem zfill_map_fst (l : List Row) : (zfill l).map Prod.fst = l.map Prod.fst := by
  unfold zfill
  rw [List.map_map]
  rfl

/-- Backward filling keeps the dates. -/
theorem bfill_map_fst (l : List Row) : (bfill l).map Prod.fst = l.map Prod.fst := by
  induction l with
  | nil => rfl
  | cons r rs ih =>
    obtain ⟨d, v⟩ := r
    unfold bfill
    simp only [List.map_cons]
    rw [ih]

/-- The api frame keeps the dates of the fetched observations. -/
theorem apiRows_map_fst (fetched : List (Int × Int)) :
    (apiRows fetched).map Prod.fst = fetched.map Prod.fst := by
  unfold apiRows
  rw [List.map_map]
  rfl

/-- Every row of the block of one existing row carries the date of that
row. -/
theorem mergeBlock_fst {fetched : List (Int × Int)} {r : Int × Int} {p : Row}
    (h : p ∈ mergeBlock fetched r) : p.1 = r.1 := by
  unfold mergeBlock at h
  cases hm : matchRows fetched r.1 with
  | nil =>
    rw [hm] at h
    rcases List.mem_singleton.mp h with rfl
    rfl
  | cons q qs =>
    rw [hm] at h
    rcases List.mem_map.mp h with ⟨_, _, rfl⟩
    rfl

/-- Under unique fetched dates, the block of one existing row is exactly
that row. -/
theorem mergeBlock_single {fetched : List (Int × Int)}
    (hf : (fetched.map Prod.fst).Nodup) (r : Int × Int) :
    mergeBlock fetched r = [(r.1, some r.2)] := by
  unfold mergeBlock
  rcases matchRows_single hf r.1 with h | ⟨v, h⟩
  · rw [h]
  · rw [h]
    rfl

/-- Under unique fetched dates, the existing part of the outer join keeps
exactly the existing dates, in order. -/
theorem mergePart_map_fst (existing fetched : List (Int × Int))
    (hf : (fetched.map Prod.fst).Nodup) :
    ((existing.flatMap (mergeBlock fetched)).map Prod.fst) = existing.map Prod.fst := by
  induction existing with
  | nil => rfl
  | cons r rs ih =>
    rw [List.flatMap_cons, List.map_append, ih, mergeBlock_single hf r]
    rfl

/-- Every date of the right-only part is a fetched date that is not an
existing date. -/
theorem mem_rightOnly_fst {existing fetched : List (Int × Int)} {a : Int}
    (h : a ∈ (rightOnly existing fetched).map Prod.fst) :
    a ∈ fetched.map Prod.fst ∧ a ∉ existing.map Prod.fst := by
  unfold rightOnly at h
  rw [List.map_map, List.mem_map] at h
  rcases h with ⟨q, hq, rfl⟩
  rcases List.mem_filter.mp hq with ⟨hqf, hpred⟩
  constructor
  · exact List.mem_map_of_mem Prod.fst hqf
  · intro hmem
    rcases List.mem_map.mp hmem with ⟨r, hr, hra⟩
    have : existing.any (fun r => r.1 = q.1) = true :=
      List.any_eq_true.mpr ⟨r, hr, by simp [hra]⟩
    rw [this] at hpred
    cases hpred

/-- The dates of the right-only part are unique when the fetched dates are. -/
theorem rightOnly_map_fst_nodup (existing fetched : List (Int × Int))
    (hf : (fetched.map Prod.fst).Nodup) :
    ((rightOnly existing fetched).map Prod.fst).Nodup := by
  unfold rightOnly
  rw [List.map_map]
  have hsub : (fetched.filter (fun q => !(existing.any (fun r => r.1 = q.1)))).Sublist fetched :=
    List.filter_sublist _
  have : ((fetched.filter (fun q => !(existing.any (fun r => r.1 = q.1)))).map
      Prod.fst).Sublist (fetched.map Prod.fst) := hsub.map Prod.fst
  exact List.Nodup.sublist (by exact this) hf

/-- Every date of the outer join comes from one of the two inputs. -/
theorem outerCoalesceFG_fst_subset {existing fetched : List (Int × Int)} {a : Int}
    (h : a ∈ (outerCoalesceFG existing fetched).map Prod.fst) :
    a ∈ existing.map Prod.fst ∨ a ∈ fetched.map Prod.fst := by
  unfold outerCoalesceFG at h
  rw [List.map_append, List.mem_append] at h
  rcases h with h | h
  · rcases List.mem_map.mp h with ⟨p, hp, rfl⟩
    rcases List.mem_flatMap.mp hp with ⟨r, hr, hpr⟩
    rw [mergeBlock_fst hpr]
    exact Or.inl (List.mem_map_of_mem Prod.fst hr)
  · exact Or.inr (mem_rightOnly_fst h).1

/-- Under unique dates on both inputs, the outer join has unique dates. -/
theorem outerCoalesceFG_map_fst_nodup {existing fetched : List (Int × Int)}
    (hex : (existing.map Prod.fst).Nodup) (hf : (fetched.map Prod.fst).Nodup) :
    ((outerCoalesceFG existing fetched).map Prod.fst).Nodup := by
  unfold outerCoalesceFG
  rw [List.map_append]
  refine List.Nodup.append ?_ (rightOnly_map_fst_nodup existing fetched hf) ?_
  · rw [mergePart_map_fst existing fetched hf]
    exact hex
  · intro a ha hro
    rw [mergePart_map_fst existing fetched hf] at ha
    exact (mem_rightOnly_fst hro).2 ha

/-- A successful run through the fixed existing frame is the reconciliation
pipeline. -/
theorem process_data_present_ok {ex fetched : List (Int × Int)} {s e : Int}
    {b : Bool} {res : List Row}
    (h : process_data (some (CsvFile.present ex)) fetched s e b = Except.ok res) :
    res = reconcileCore ex fetched s e b := by
  simp only [process_data, load_existing_data] at h
  split at h
  · cases h
  · exact (Except.ok.inj h).symm

/-- Every successful run is the reconciliation pipeline on some existing
frame. -/
theorem process_data_ok {csvFile : Option CsvFile} {fetched : List (Int × Int)}
    {s e : Int} {b : Bool} {res : List Row}
    (h : process_data csvFile fetched s e b = Except.ok res) :
    ∃ existing, res = reconcileCore existing fetched s e b := by
  unfold process_data at h
  rcases hm : (match csvFile with | some f => load_existing_data f | none => some []) with _ | ex
  · rw [hm] at h
    cases h
  · simp only [hm] at h
    split at h
    · cases h
    · exact ⟨ex, (Except.ok.inj h).symm⟩

/-- Under unique input dates the joined frame carries exactly the calendar
range as dates, in order. -/
theorem joinedFrame_map_fst {existing fetched : List (Int × Int)} {s e : Int}
    (hex : (existing.map Prod.fst).Nodup) (hf : (fetched.map Prod.fst).Nodup) :
    (joinedFrame existing fetched s e).map Prod.fst = dateRange s e := by
  unfold joinedFrame
  refine leftJoin_map_fst ?_ _
  split
  · exact outerCoalesceFG_map_fst_nodup hex hf
  · rw [apiRows_map_fst]
    exact hf

/-- Rows whose dates are strictly increasing are sorted by date. -/
theorem sorted_of_map_fst_pairwise {l : List Row}
    (h : (l.map Prod.fst).Pairwise (· < ·)) : List.Sorted keyLe l := by
  rw [List.pairwise_map] at h
  exact h.imp (fun hab => le_of_lt hab)

/-- Claim C2.  For start ≤ end and inputs with unique dates, a returned
Series has exactly (end - start) + 1 rows, its dates are exactly the
calendar dates of [start, end], and no date repeats. -/
theorem C2_calendar_completeness (ex fetched : List (Int × Int)) (s e : Int)
    (b : Bool) (res : List Row) (hse : s ≤ e) (hex : (ex.map Prod.fst).Nodup)
    (hf : (fetched.map Prod.fst).Nodup)
    (hres : process_data (some (CsvFile.present ex)) fetched s e b = Except.ok res) :
    res.length = (e - s).toNat + 1
      ∧ (∀ d : Int, d ∈ res.map Prod.fst ↔ s ≤ d ∧ d ≤ e)
      ∧ (res.map Prod.fst).Nodup := by
  have hr : res = reconcileCore ex fetched s e b := process_data_present_ok hres
  subst hr
  unfold reconcileCore
  set filled := (if b then bfill (joinedFrame ex fetched s e)
      else zfill (joinedFrame ex fetched s e)) with hfil
  have hjm : (joinedFrame ex fetched s e).map Prod.fst = dateRange s e :=
    joinedFrame_map_fst hex hf
  have hfm : filled.map Prod.fst = dateRange s e := by
    rw [hfil]
    cases b
    · simpa [zfill_map_fst] using hjm
    · simpa [bfill_map_fst] using hjm
  have hsorted : List.Sorted keyLe filled := by
    apply sorted_of_map_fst_pairwise
    rw [hfm]
    exact dateRange_pairwise s e
  unfold sortByDate
  rw [hsorted.insertionSort_eq]
  refine ⟨?_, ?_, ?_⟩
  · have hlen : (filled.map Prod.fst).length = (dateRange s e).length := by rw [hfm]
    rw [List.length_map] at hlen
    rw [hlen, dateRange_length]
    omega
  · intro d
    rw [hfm]
    exact mem_dateRange
  · rw [hfm]
    exact (dateRange_pairwise s e).imp (fun h => ne_of_lt h)

/-- Witness for claim C2: existing day 0 value 5, fetched day 1 value 7,
range day 0 to day 1, zero fill. -/
theorem C2_calendar_completeness_witness :
    ([((0 : Int), some (5 : Int)), (1, some 0)] : List Row).length
        = ((1 : Int) - 0).toNat + 1
      ∧ (∀ d : Int,
          d ∈ ([((0 : Int), some (5 : Int)), (1, some 0)] : List Row).map Prod.fst
            ↔ 0 ≤ d ∧ d ≤ 1)
      ∧ (([((0 : Int), some (5 : Int)), (1, some 0)] : List Row).map Prod.fst).Nodup :=
  C2_calendar_completeness [(0, 5)] [(1, 7)] 0 1 false _ (by norm_num) (by decide)
    (by decide) rfl

/-- Claim C4.  Under the zero fill policy, every date of the range that
carries no observation of either input appears in a returned Series with
value 0, and every row of that date holds 0. -/
theorem C4_zero_fill (ex fetched : List (Int × Int)) (s e d : Int) (res : List Row)
    (hd1 : s ≤ d) (hd2 : d ≤ e) (hnex : d ∉ ex.map Prod.fst)
    (hnf : d ∉ fetched.map Prod.fst)
    (hres : process_data (some (CsvFile.present ex)) fetched s e false = Except.ok res) :
    (d, some 0) ∈ res ∧ ∀ p ∈ res, p.1 = d → p.2 = some 0 := by
  have hr : res = reconcileCore ex fetched s e false := process_data_present_ok hres
  subst hr
  rw [show reconcileCore ex fetched s e false
      = sortByDate (zfill (joinedFrame ex fetched s e)) from rfl]
  set cmb := (if 0 < ex.length then outerCoalesceFG ex fetched else apiRows fetched)
    with hcmb
  have hdkeys : d ∉ cmb.map Prod.fst := by
    rw [hcmb]
    split
    · intro hmem
      rcases outerCoalesceFG_fst_subset hmem with h | h
      · exact hnex h
      · exact hnf h
    · rw [apiRows_map_fst]
      exact hnf
  have hjf : joinedFrame ex fetched s e = leftJoin (dateRange s e) cmb := rfl
  have hdr : d ∈ dateRange s e := mem_dateRange.mpr ⟨hd1, hd2⟩
  have hblock : joinBlock cmb d = [(d, (none : Option Int))] := by
    rw [joinBlock_eq, if_pos (matchRows_eq_nil hdkeys)]
  have hjmem : ((d, none) : Row) ∈ leftJoin (dateRange s e) cmb := by
    unfold leftJoin
    rw [List.mem_flatMap]
    refine ⟨d, hdr, ?_⟩
    rw [hblock]
    exact List.mem_singleton_self _
  have hzmem : ((d, some 0) : Row) ∈ zfill (joinedFrame ex fetched s e) := by
    rw [hjf]
    have := List.mem_map_of_mem (fun r : Row => (r.1, some (r.2.getD 0))) hjmem
    simpa [zfill] using this
  constructor
  · unfold sortByDate
    rw [(List.perm_insertionSort keyLe _).mem_iff]
    exact hzmem
  · intro p hp hpd
    unfold sortByDate at hp
    rw [(List.perm_insertionSort keyLe _).mem_iff] at hp
    unfold zfill at hp
    rcases List.mem_map.mp hp with ⟨q, hq, rfl⟩
    simp only at hpd
    rw [hjf] at hq
    rcases mem_leftJoin hq with ⟨hq1, hq2 | hq2⟩
    · exfalso
      exact hdkeys (hpd ▸ List.mem_map_of_mem Prod.fst hq2)
    · simp only [hq2]
      rfl

/-- Witness for claim C4: existing day 0 value 10, fetched day 2 value 20,
range day 0 to day 2, day 1 has no observation. -/
theorem C4_zero_fill_witness :
    (((1 : Int), some (0 : Int))
        ∈ ([((0 : Int), some (10 : Int)), (1, some 0), (2, some 0)] : List Row))
      ∧ ∀ p ∈ ([((0 : Int), some (10 : Int)), (1, some 0), (2, some 0)] : List Row),
          p.1 = 1 → p.2 = some 0 :=
  C4_zero_fill [(0, 10)] [(2, 20)] 0 2 1 _ (by norm_num) (by norm_num) (by decide)
    (by decide) rfl

/-- Claim C8.  Whatever the order of the observations of either input, a
returned Series is sorted ascending by date. -/
theorem C8_sort_invariant (csvFile : Option CsvFile) (fetched : List (Int × Int))
    (s e : Int) (b : Bool) (res : List Row)
    (hres : process_data csvFile fetched s e b = Except.ok res) :
    List.Sorted keyLe res := by
  rcases process_data_ok hres with ⟨ex, rfl⟩
  exact List.sorted_insertionSort keyLe _

/-- Witness for claim C8 at a concrete run. -/
theorem C8_sort_invariant_witness :
    List.Sorted keyLe ([((0 : Int), some (3 : Int))] : List Row) :=
  C8_sort_invariant (some (CsvFile.present [])) [(0, 3)] 0 0 false _ rfl

/-- Claim C10.  Every date of a returned Series lies in [start, end];
observations outside the range never appear. -/
theorem C10_range_restriction (csvFile : Option CsvFile) (fetched : List (Int × Int))
    (s e : Int) (b : Bool) (res : List Row)
    (hres : process_data csvFile fetched s e b = Except.ok res) :
    ∀ p ∈ res, s ≤ p.1 ∧ p.1 ≤ e := by
  rcases process_data_ok hres with ⟨ex, rfl⟩
  intro p hp
  unfold reconcileCore sortByDate at hp
  rw [(List.perm_insertionSort keyLe _).mem_iff] at hp
  have hpj : p.1 ∈ (joinedFrame ex fetched s e).map Prod.fst := by
    split at hp
    · have := List.mem_map_of_mem Prod.fst hp
      rwa [bfill_map_fst] at this
    · have := List.mem_map_of_mem Prod.fst hp
      rwa [zfill_map_fst] at this
  rcases List.mem_map.mp hpj with ⟨q, hq, hq1⟩
  unfold joinedFrame at hq
  rcases mem_leftJoin hq with ⟨hqr, _⟩
  rw [← hq1]
  exact mem_dateRange.mp hqr

/-- Witness for claim C10 at a concrete run and row. -/
theorem C10_range_restriction_witness :
    (0 : Int) ≤ (((0 : Int), some (3 : Int)) : Row).1
      ∧ (((0 : Int), some (3 : Int)) : Row).1 ≤ 0 :=
  C10_range_restriction (some (CsvFile.present [])) [(0, 3)] 0 0 false _ rfl
    ((0, some 3)) (List.mem_singleton_self _)
